import Mathlib

/-
Verification of the salary-settlement core of the Hemang dairy-records
application.  The definitions below are a shallow embedding of the
TypeScript source:

  * data model              — src/src/types/index.ts
  * aggregation             — src/src/pages/SettleSalary.tsx (paymentSummary),
                              src/src/pages/Summary.tsx (avgRate),
                              the 10-day salary table (Rate/L cell)
  * settlement              — src/src/pages/SettleSalary.tsx (validateSettlement,
                              handleSettleSalary)
  * store state updates     — src/src/hooks/useSupabaseData.ts
                              (addPaymentRecord prepends, removeSalaryEntry
                              filters by id, updateCreditEntries replaces the
                              whole collection)

JS numbers are modelled as rationals; a JS division whose result is
non-finite (NaN/Infinity, i.e. a zero denominator) is modelled as `none`.
Date strings are modelled by the integer `new Date(s).getTime()`, which is
all the code ever compares.
-/

namespace Hemang

/-- SalaryEntry (src/src/types/index.ts): one milk-delivery record.
`date` is the timestamp `new Date(entry.date).getTime()`. -/
structure SalaryEntry where
  id : Nat
  employeeId : Nat
  date : Int
  amount : ℚ
  liters : ℚ
deriving DecidableEq

/-- CreditEntry (src/src/types/index.ts): an advance/purchase against salary. -/
structure CreditEntry where
  id : Nat
  employeeId : Nat
  date : Int
  itemName : String
  amount : ℚ
deriving DecidableEq

/-- The record passed to `addPaymentRecord` in handleSettleSalary
(SettleSalary.tsx lines 163-169); the store assigns id/createdAt. -/
structure PaymentRecord where
  employeeId : Nat
  salaryAmount : ℚ
  creditDeducted : ℚ
  netPaid : ℚ
  paymentDate : Int
deriving DecidableEq

/-- The in-memory collections held by the data hooks
(src/src/hooks/useSupabaseData.ts).  `employees` keeps only the ids, which is
all the settlement logic inspects. -/
structure AppState where
  employees : List Nat
  salaryEntries : List SalaryEntry
  creditEntries : List CreditEntry
  paymentRecords : List PaymentRecord
deriving DecidableEq

/-- SettleSalary.tsx lines 30-31: total salary of one employee, the sum of
`amount` over that employee's salary entries (no date filtering). -/
def totalSalary (eid : Nat) (entries : List SalaryEntry) : ℚ :=
  ((entries.filter (fun e => e.employeeId == eid)).map (fun e => e.amount)).sum

/-- SettleSalary.tsx lines 41-45: total available credit of one employee, the
sum of `amount` over ALL of that employee's credit entries (no date filter). -/
def totalAvailableCredit (eid : Nat) (entries : List CreditEntry) : ℚ :=
  ((entries.filter (fun e => e.employeeId == eid)).map (fun e => e.amount)).sum

/-- SettleSalary.tsx line 67: `netPayable = totalSalary - manualCredit`. -/
def netPayable (totalSalary manualCredit : ℚ) : ℚ :=
  totalSalary - manualCredit

/-- Sum of credit amounts over a list of credit entries (helper). -/
def creditAmountSum (l : List CreditEntry) : ℚ :=
  (l.map (fun e => e.amount)).sum

/-- JS division on finite values: a zero denominator produces a non-finite
value (Infinity or NaN), modelled as `none`. -/
def jsDiv (a b : ℚ) : Option ℚ :=
  if b = 0 then none else some (a / b)

/-- SettleSalary.tsx line 71:
`salaryEntryCount > 0 ? totalSalary / salaryEntryCount : 0`. -/
def avgSalaryPerEntry (total : ℚ) (count : Nat) : Option ℚ :=
  if 0 < count then jsDiv total (count : ℚ) else some 0

/-- JS `Number(q.toFixed(2))` on a finite value: rounding to two decimals
(the exact tie-breaking of toFixed is immaterial to the properties proved
here, which only concern zero-denominator guards). -/
def toFixed2 (q : ℚ) : ℚ :=
  ((round (q * 100) : ℤ) : ℚ) / 100

/-- Summary.tsx line 403:
`totalMilk > 0 ? Number((totalEarned / totalMilk).toFixed(2)) : 0`. -/
def avgRate (totalEarned totalMilk : ℚ) : Option ℚ :=
  if 0 < totalMilk then (jsDiv totalEarned totalMilk).map toFixed2 else some 0

/-- The Rate/L table cell of the 10-day salary page
(src/unnamed/part_000 line 637): `entry.amount / entry.liters`, with no
guard on the denominator. -/
def rateLCell (e : SalaryEntry) : Option ℚ :=
  jsDiv e.amount e.liters

/-- SettleSalary.tsx lines 115-123: validateSettlement.  Returns the first
failing check, or `none` when the deduction passes validation. -/
inductive SettleError where
  | summaryNotFound
  | negativeCredit
  | exceedsAvailableCredit
  | noSalaryEntries
deriving DecidableEq

def validateSettlement (manualCredit availableCredit : ℚ) : Option SettleError :=
  if manualCredit < 0 then some SettleError.negativeCredit
  else if availableCredit < manualCredit then some SettleError.exceedsAvailableCredit
  else none

/-- One persistence call issued by handleSettleSalary, in issue order. -/
inductive Effect where
  | addPaymentRecord (r : PaymentRecord)
  | removeSalaryEntry (id : Nat)
  | updateCreditEntries (entries : List CreditEntry)
deriving DecidableEq

instance : DecidableRel (fun a b : CreditEntry => a.date ≤ b.date) :=
  fun a b => inferInstanceAs (Decidable (a.date ≤ b.date))

instance : IsTotal CreditEntry (fun a b => a.date ≤ b.date) :=
  ⟨fun a b => Int.le_total a.date b.date⟩

instance : IsTrans CreditEntry (fun a b => a.date ≤ b.date) :=
  ⟨fun _ _ _ hab hbc => le_trans hab hbc⟩

/-- SettleSalary.tsx line 185: `sort((a, b) => getTime(a.date) - getTime(b.date))`,
a stable ascending sort on the date. -/
def sortByDate (l : List CreditEntry) : List CreditEntry :=
  List.insertionSort (fun a b => a.date ≤ b.date) l

/-- SettleSalary.tsx lines 199-226: the credit walk.  `remaining` starts at
the chosen deduction; a positive remainder drops an entry entirely when its
amount fits, otherwise keeps the entry with its amount reduced by the
remainder; once the remainder is spent every entry is kept unchanged. -/
def processCredits (remaining : ℚ) : List CreditEntry → List CreditEntry
  | [] => []
  | e :: rest =>
    if 0 < remaining then
      if e.amount ≤ remaining then processCredits (remaining - e.amount) rest
      else { e with amount := e.amount - remaining } :: processCredits 0 rest
    else e :: processCredits remaining rest

/-- SettleSalary.tsx lines 182-226: the recomputed global credit collection:
other employees' entries unchanged (in order), followed by the walked,
date-sorted entries of the settled employee. -/
def updatedCredits (credits : List CreditEntry) (eid : Nat) (D : ℚ) : List CreditEntry :=
  credits.filter (fun e => e.employeeId != eid) ++
    processCredits D (sortByDate (credits.filter (fun e => e.employeeId == eid)))

/-- SettleSalary.tsx line 235: the settled employee's salary entries. -/
def employeeSalaryEntries (st : AppState) (eid : Nat) : List SalaryEntry :=
  st.salaryEntries.filter (fun e => e.employeeId == eid)

/-- useSupabaseData.ts line 204: removeSalaryEntry updates local state with
`prev.filter(entry => entry.id !== id)`. -/
def removeById (l : List SalaryEntry) (i : Nat) : List SalaryEntry :=
  l.filter (fun e => e.id != i)

/-- The salary-entry list after the deletion loop of SettleSalary.tsx
lines 237-239 (one removeSalaryEntry call per entry of the employee). -/
def removeAllById (l : List SalaryEntry) (ids : List Nat) : List SalaryEntry :=
  ids.foldl removeById l

/-- SettleSalary.tsx lines 163-169: the record passed to addPaymentRecord.
`today` is the paymentDate. -/
def settlePaymentRecord (st : AppState) (eid : Nat) (D : ℚ) (today : Int) : PaymentRecord :=
  { employeeId := eid
    salaryAmount := totalSalary eid st.salaryEntries
    creditDeducted := D
    netPaid := netPayable (totalSalary eid st.salaryEntries) D
    paymentDate := today }

/-- The persistence calls of one successful settlement, in the order the
code issues (and awaits) them: addPaymentRecord (line 163), one
removeSalaryEntry per salary entry of the employee (lines 237-239), then
updateCreditEntries (line 241). -/
def settleEffectTrace (st : AppState) (eid : Nat) (D : ℚ) (today : Int) : List Effect :=
  Effect.addPaymentRecord (settlePaymentRecord st eid D today) ::
    (employeeSalaryEntries st eid).map (fun e => Effect.removeSalaryEntry e.id) ++
    [Effect.updateCreditEntries (updatedCredits st.creditEntries eid D)]

/-- The local state after a successful settlement: payment record prepended
(useSupabaseData.ts line 460), salary entries deleted one id at a time
(line 204), credit collection replaced wholesale (lines 345-378). -/
def settleNewState (st : AppState) (eid : Nat) (D : ℚ) (today : Int) : AppState :=
  { st with
    paymentRecords := settlePaymentRecord st eid D today :: st.paymentRecords
    salaryEntries :=
      removeAllById st.salaryEntries ((employeeSalaryEntries st eid).map (fun e => e.id))
    creditEntries := updatedCredits st.creditEntries eid D }

/-- SettleSalary.tsx lines 125-258: handleSettleSalary.  The summary lookup
fails only when the employee id is absent (line 127); then validateSettlement
(line 132) and the `lastSalary <= 0` check (line 142) run, each returning
before any persistence call; otherwise the effect trace is issued and the
local state updated. -/
def handleSettleSalary (st : AppState) (eid : Nat) (D : ℚ) (today : Int) :
    Except SettleError (List Effect × AppState) :=
  if eid ∈ st.employees then
    (validateSettlement D (totalAvailableCredit eid st.creditEntries)).elim
      (if totalSalary eid st.salaryEntries ≤ 0 then
        Except.error SettleError.noSalaryEntries
      else
        Except.ok (settleEffectTrace st eid D today, settleNewState st eid D today))
      Except.error
  else Except.error SettleError.summaryNotFound

/-- The persistence calls an invocation issues: none when it is rejected. -/
def settleEffects (st : AppState) (eid : Nat) (D : ℚ) (today : Int) : List Effect :=
  match handleSettleSalary st eid D today with
  | Except.ok p => p.1
  | Except.error _ => []

/-- The local state after an invocation (unchanged when it is rejected). -/
def settledState (st : AppState) (eid : Nat) (D : ℚ) (today : Int) : AppState :=
  match handleSettleSalary st eid D today with
  | Except.ok p => p.2
  | Except.error _ => st

/-- The error an invocation reports, if any. -/
def settleFailure (st : AppState) (eid : Nat) (D : ℚ) (today : Int) : Option SettleError :=
  match handleSettleSalary st eid D today with
  | Except.ok _ => none
  | Except.error e => some e

/-! Section: Concrete stores used to instantiate the theorems -/

/-- A store with one employee (id 1), one salary entry of 100 and one credit
entry of 30. -/
def exSt : AppState :=
  { employees := [1]
    salaryEntries := [⟨10, 1, 0, 100, 5⟩]
    creditEntries := [⟨20, 1, 0, "flour", 30⟩]
    paymentRecords := [] }

/-- The effect trace of settling employee 1 of `exSt` with deduction 12 on
day 7. -/
def exTrace : List Effect :=
  [Effect.addPaymentRecord ⟨1, 100, 12, 88, 7⟩, Effect.removeSalaryEntry 10,
    Effect.updateCreditEntries [⟨20, 1, 0, "flour", 18⟩]]

/-- The store after settling employee 1 of `exSt` with deduction 12 on
day 7. -/
def exSt2 : AppState :=
  { employees := [1]
    salaryEntries := []
    creditEntries := [⟨20, 1, 0, "flour", 18⟩]
    paymentRecords := [⟨1, 100, 12, 88, 7⟩] }

/-- A store with two employees, so that frame conditions are visible. -/
def twoEmployeeState : AppState :=
  { employees := [1, 2]
    salaryEntries := [⟨10, 1, 0, 100, 5⟩, ⟨11, 2, 0, 40, 2⟩]
    creditEntries := [⟨20, 1, 0, "flour", 30⟩, ⟨25, 2, 1, "rice", 10⟩]
    paymentRecords := [] }

/-- The effect trace of settling employee 1 of `twoEmployeeState` with
deduction 12 on day 7. -/
def twoTrace : List Effect :=
  [Effect.addPaymentRecord ⟨1, 100, 12, 88, 7⟩, Effect.removeSalaryEntry 10,
    Effect.updateCreditEntries [⟨25, 2, 1, "rice", 10⟩, ⟨20, 1, 0, "flour", 18⟩]]

/-- The store after settling employee 1 of `twoEmployeeState` with deduction
12 on day 7. -/
def twoSt2 : AppState :=
  { employees := [1, 2]
    salaryEntries := [⟨11, 2, 0, 40, 2⟩]
    creditEntries := [⟨25, 2, 1, "rice", 10⟩, ⟨20, 1, 0, "flour", 18⟩]
    paymentRecords := [⟨1, 100, 12, 88, 7⟩] }

/-- The spec's worked example: credit entries with dates d1 < d2 < d3 and
amounts 50, 30, 20, deliberately stored out of date order. -/
def threeCreditState : AppState :=
  { employees := [1]
    salaryEntries := [⟨10, 1, 0, 100, 5⟩]
    creditEntries := [⟨23, 1, 3, "c", 20⟩, ⟨21, 1, 1, "a", 50⟩, ⟨22, 1, 2, "b", 30⟩]
    paymentRecords := [] }

/-- A store where the deduction 50 equals the whole available credit, so a
repeated identical settlement exceeds the remaining credit of 0. -/
def halfCreditState : AppState :=
  { employees := [1]
    salaryEntries := [⟨10, 1, 0, 100, 5⟩]
    creditEntries := [⟨20, 1, 0, "flour", 50⟩]
    paymentRecords := [] }

/-! Section: Helper lemmas about the credit walk -/

theorem processCredits_of_nonpos (l : List CreditEntry) (r : ℚ) (h : r ≤ 0) :
    processCredits r l = l := by
  induction l with
  | nil => rfl
  | cons e rest ih =>
    unfold processCredits
    rw [if_neg (not_lt.mpr h), ih]

theorem creditAmountSum_nil : creditAmountSum [] = 0 := rfl

theorem creditAmountSum_cons (e : CreditEntry) (l : List CreditEntry) :
    creditAmountSum (e :: l) = e.amount + creditAmountSum l := by
  simp [creditAmountSum]

theorem creditAmountSum_append (l₁ l₂ : List CreditEntry) :
    creditAmountSum (l₁ ++ l₂) = creditAmountSum l₁ + creditAmountSum l₂ := by
  simp [creditAmountSum]

theorem creditAmountSum_processCredits :
    ∀ (l : List CreditEntry) (r : ℚ), 0 ≤ r → r ≤ creditAmountSum l →
      creditAmountSum (processCredits r l) = creditAmountSum l - r := by
  intro l
  induction l with
  | nil =>
    intro r h0 hle
    rw [creditAmountSum_nil] at hle
    have : r = 0 := le_antisymm hle h0
    simp [processCredits, creditAmountSum_nil, this]
  | cons e rest ih =>
    intro r h0 hle
    rw [creditAmountSum_cons] at hle
    by_cases h1 : 0 < r
    · by_cases h2 : e.amount ≤ r
      · have h3 : 0 ≤ r - e.amount := sub_nonneg.mpr h2
        have h4 : r - e.amount ≤ creditAmountSum rest := by linarith
        simp only [processCredits, if_pos h1, if_pos h2]
        rw [ih (r - e.amount) h3 h4, creditAmountSum_cons]
        ring
      · simp only [processCredits, if_pos h1, if_neg h2]
        rw [creditAmountSum_cons, processCredits_of_nonpos rest 0 le_rfl,
          creditAmountSum_cons]
        ring
    · have hr : r = 0 := le_antisymm (not_lt.mp h1) h0
      rw [processCredits_of_nonpos (e :: rest) r (le_of_eq hr), hr, sub_zero]

theorem mem_processCredits_employeeId {eid : Nat} :
    ∀ (l : List CreditEntry) (r : ℚ), (∀ y ∈ l, y.employeeId = eid) →
      ∀ x ∈ processCredits r l, x.employeeId = eid := by
  intro l
  induction l with
  | nil => intro r _ x hx; simp [processCredits] at hx
  | cons e rest ih =>
    intro r hall x hx
    by_cases h1 : 0 < r
    · by_cases h2 : e.amount ≤ r
      · simp only [processCredits, if_pos h1, if_pos h2] at hx
        exact ih _ (fun y hy => hall y (List.mem_cons_of_mem e hy)) x hx
      · simp only [processCredits, if_pos h1, if_neg h2,
          processCredits_of_nonpos rest 0 le_rfl] at hx
        rcases List.mem_cons.mp hx with h | h
        · rw [h]; exact hall e (List.mem_cons_self e rest)
        · exact hall x (List.mem_cons_of_mem e h)
    · rw [processCredits_of_nonpos (e :: rest) r (not_lt.mp h1)] at hx
      exact hall x hx

theorem mem_processCredits_pos :
    ∀ (l : List CreditEntry) (r : ℚ), (∀ y ∈ l, 0 < y.amount) →
      ∀ x ∈ processCredits r l, 0 < x.amount := by
  intro l
  induction l with
  | nil => intro r _ x hx; simp [processCredits] at hx
  | cons e rest ih =>
    intro r hall x hx
    by_cases h1 : 0 < r
    · by_cases h2 : e.amount ≤ r
      · simp only [processCredits, if_pos h1, if_pos h2] at hx
        exact ih _ (fun y hy => hall y (List.mem_cons_of_mem e hy)) x hx
      · simp only [processCredits, if_pos h1, if_neg h2,
          processCredits_of_nonpos rest 0 le_rfl] at hx
        rcases List.mem_cons.mp hx with h | h
        · rw [h]; simpa using sub_pos.mpr (not_le.mp h2)
        · exact hall x (List.mem_cons_of_mem e h)
    · rw [processCredits_of_nonpos (e :: rest) r (not_lt.mp h1)] at hx
      exact hall x hx

/-! Section: Helper lemmas about the date sort -/

theorem sortByDate_perm (l : List CreditEntry) : List.Perm (sortByDate l) l :=
  List.perm_insertionSort _ l

theorem sortByDate_sorted (l : List CreditEntry) :
    List.Sorted (fun a b : CreditEntry => a.date ≤ b.date) (sortByDate l) :=
  List.sorted_insertionSort _ l

theorem creditAmountSum_sortByDate (l : List CreditEntry) :
    creditAmountSum (sortByDate l) = creditAmountSum l := by
  unfold creditAmountSum
  exact ((sortByDate_perm l).map (fun e => e.amount)).sum_eq

theorem mem_sortByDate {x : CreditEntry} {l : List CreditEntry} (h : x ∈ sortByDate l) :
    x ∈ l :=
  (sortByDate_perm l).mem_iff.mp h

/-! Section: Helper lemmas about the recomputed credit collection -/

theorem totalAvailableCredit_eq_filter (eid : Nat) (l : List CreditEntry) :
    totalAvailableCredit eid l = creditAmountSum (l.filter (fun e => e.employeeId == eid)) :=
  rfl

theorem filter_own_updatedCredits (credits : List CreditEntry) (eid : Nat) (D : ℚ) :
    (updatedCredits credits eid D).filter (fun e => e.employeeId == eid) =
      processCredits D (sortByDate (credits.filter (fun e => e.employeeId == eid))) := by
  unfold updatedCredits
  rw [List.filter_append]
  have h1 : (credits.filter (fun e => e.employeeId != eid)).filter
      (fun e => e.employeeId == eid) = [] := by
    rw [List.filter_eq_nil_iff]
    intro a ha
    have h2 := (List.mem_filter.mp ha).2
    simp only [bne_iff_ne, ne_eq] at h2
    simp [h2]
  have h3 : (processCredits D
      (sortByDate (credits.filter (fun e => e.employeeId == eid)))).filter
        (fun e => e.employeeId == eid) =
      processCredits D (sortByDate (credits.filter (fun e => e.employeeId == eid))) := by
    rw [List.filter_eq_self]
    intro a ha
    have h4 : a.employeeId = eid := by
      refine mem_processCredits_employeeId _ D ?_ a ha
      intro y hy
      have := (List.mem_filter.mp (mem_sortByDate hy)).2
      simpa using this
    simp [h4]
  rw [h1, h3, List.nil_append]

theorem filter_other_updatedCredits (credits : List CreditEntry) (eid : Nat) (D : ℚ) :
    (updatedCredits credits eid D).filter (fun e => e.employeeId != eid) =
      credits.filter (fun e => e.employeeId != eid) := by
  unfold updatedCredits
  rw [List.filter_append]
  have h1 : (credits.filter (fun e => e.employeeId != eid)).filter
      (fun e => e.employeeId != eid) = credits.filter (fun e => e.employeeId != eid) := by
    rw [List.filter_eq_self]
    intro a ha
    exact (List.mem_filter.mp ha).2
  have h2 : (processCredits D
      (sortByDate (credits.filter (fun e => e.employeeId == eid)))).filter
        (fun e => e.employeeId != eid) = [] := by
    rw [List.filter_eq_nil_iff]
    intro a ha
    have h3 : a.employeeId = eid := by
      refine mem_processCredits_employeeId _ D ?_ a ha
      intro y hy
      have := (List.mem_filter.mp (mem_sortByDate hy)).2
      simpa using this
    simp [h3]
  rw [h1, h2, List.append_nil]

theorem totalAvailableCredit_updatedCredits (credits : List CreditEntry) (eid : Nat) (D : ℚ)
    (h0 : 0 ≤ D) (hC : D ≤ totalAvailableCredit eid credits) :
    totalAvailableCredit eid (updatedCredits credits eid D) =
      totalAvailableCredit eid credits - D := by
  rw [totalAvailableCredit_eq_filter, filter_own_updatedCredits]
  rw [totalAvailableCredit_eq_filter] at hC ⊢
  rw [creditAmountSum_processCredits _ D h0 (by rwa [creditAmountSum_sortByDate]),
    creditAmountSum_sortByDate]

/-! Section: Helper lemmas about the salary-entry deletion loop -/

theorem removeAllById_eq_filter :
    ∀ (ids : List Nat) (l : List SalaryEntry),
      removeAllById l ids = l.filter (fun e => ids.all (fun i => e.id != i)) := by
  intro ids
  induction ids with
  | nil =>
    intro l
    simp [removeAllById, List.filter_eq_self]
  | cons i rest ih =>
    intro l
    have h1 : removeAllById l (i :: rest) = removeAllById (removeById l i) rest := rfl
    rw [h1, ih, removeById, List.filter_filter]
    refine List.filter_congr ?_
    intro e _
    rw [Bool.eq_iff_iff]
    simp [List.all_cons, and_comm]

theorem mem_removeAllById_of_id (l : List SalaryEntry) (ids : List Nat) (e : SalaryEntry)
    (h : e ∈ removeAllById l ids) : e ∈ l ∧ e.id ∉ ids := by
  rw [removeAllById_eq_filter] at h
  have h1 := List.mem_filter.mp h
  refine ⟨h1.1, ?_⟩
  intro hmem
  have h2 := List.all_eq_true.mp h1.2 e.id hmem
  simp at h2

/-- After the deletion loop every salary entry of the settled employee is
gone, so that employee's salary total over the remaining list is zero. -/
theorem totalSalary_removeAllById (eid : Nat) (l : List SalaryEntry) :
    totalSalary eid (removeAllById l
      ((l.filter (fun e => e.employeeId == eid)).map (fun e => e.id))) = 0 := by
  unfold totalSalary
  have h : (removeAllById l
      ((l.filter (fun e => e.employeeId == eid)).map (fun e => e.id))).filter
        (fun e => e.employeeId == eid) = [] := by
    rw [List.filter_eq_nil_iff]
    intro e he
    obtain ⟨hmem, hid⟩ := mem_removeAllById_of_id _ _ _ he
    intro heq
    apply hid
    refine List.mem_map.mpr ⟨e, ?_, rfl⟩
    exact List.mem_filter.mpr ⟨hmem, heq⟩
  rw [h]
  rfl

/-- With globally distinct salary-entry ids (the store's primary keys), the
deletion loop removes exactly the settled employee's entries. -/
theorem removeAllById_eq_filter_employee (eid : Nat) (l : List SalaryEntry)
    (hids : (l.map (fun e => e.id)).Nodup) :
    removeAllById l ((l.filter (fun e => e.employeeId == eid)).map (fun e => e.id)) =
      l.filter (fun e => e.employeeId != eid) := by
  rw [removeAllById_eq_filter]
  refine List.filter_congr ?_
  intro e he
  rw [Bool.eq_iff_iff]
  constructor
  · intro hall
    have h1 := List.all_eq_true.mp hall
    simp only [bne_iff_ne, ne_eq]
    intro heq
    have h2 : e.id ∈ (l.filter (fun f => f.employeeId == eid)).map (fun f => f.id) :=
      List.mem_map.mpr ⟨e, List.mem_filter.mpr ⟨he, by simp [heq]⟩, rfl⟩
    have h3 := h1 e.id h2
    simp at h3
  · intro hne
    refine List.all_eq_true.mpr ?_
    intro i hi
    obtain ⟨f, hf, hfid⟩ := List.mem_map.mp hi
    obtain ⟨hfl, hfe⟩ := List.mem_filter.mp hf
    have h4 : f.employeeId = eid := by simpa using hfe
    have h5 : e ≠ f := by
      intro heq
      rw [heq] at hne
      simp [h4] at hne
    have h6 : e.id ≠ f.id := fun heq =>
      h5 (List.inj_on_of_nodup_map hids he hfl heq)
    rw [← hfid]
    simpa using h6

/-! Section: Characterization of handleSettleSalary -/

/-- A settlement whose inputs pass every check succeeds, issuing the effect
trace and producing the updated local state. -/
theorem handleSettleSalary_ok (st : AppState) (eid : Nat) (D : ℚ) (today : Int)
    (hmem : eid ∈ st.employees) (h0 : 0 ≤ D)
    (hC : D ≤ totalAvailableCredit eid st.creditEntries)
    (hS : 0 < totalSalary eid st.salaryEntries) :
    handleSettleSalary st eid D today =
      Except.ok (settleEffectTrace st eid D today, settleNewState st eid D today) := by
  unfold handleSettleSalary validateSettlement
  rw [if_pos hmem, if_neg (not_lt.mpr h0), if_neg (not_lt.mpr hC)]
  simp only [Option.elim_none]
  rw [if_neg (not_le.mpr hS)]

/-- A successful settlement presupposes every check passed, and its outputs
are exactly the effect trace and the updated local state. -/
theorem handleSettleSalary_ok_inv (st : AppState) (eid : Nat) (D : ℚ) (today : Int)
    (fx : List Effect) (st' : AppState)
    (h : handleSettleSalary st eid D today = Except.ok (fx, st')) :
    eid ∈ st.employees ∧ 0 ≤ D ∧ D ≤ totalAvailableCredit eid st.creditEntries ∧
      0 < totalSalary eid st.salaryEntries ∧
      fx = settleEffectTrace st eid D today ∧ st' = settleNewState st eid D today := by
  by_cases hmem : eid ∈ st.employees
  · by_cases h1 : D < 0
    · simp [handleSettleSalary, validateSettlement, hmem, h1] at h
    · by_cases h2 : totalAvailableCredit eid st.creditEntries < D
      · simp [handleSettleSalary, validateSettlement, hmem, h1, h2] at h
      · by_cases h3 : totalSalary eid st.salaryEntries ≤ 0
        · simp [handleSettleSalary, validateSettlement, hmem, h1, h2, h3] at h
        · simp only [handleSettleSalary, validateSettlement, if_pos hmem,
            if_neg h1, if_neg h2, Option.elim_none, if_neg h3,
            Except.ok.injEq, Prod.mk.injEq] at h
          exact ⟨hmem, not_lt.mp h1, not_lt.mp h2, not_le.mp h3, h.1.symm, h.2.symm⟩
  · simp [handleSettleSalary, hmem] at h

/-- The lifetime credit total ignores the dates of the entries entirely:
reassigning every date arbitrarily leaves it unchanged. -/
theorem totalAvailableCredit_map_date (eid : Nat) (l : List CreditEntry)
    (f : CreditEntry → Int) :
    totalAvailableCredit eid (l.map (fun e => { e with date := f e })) =
      totalAvailableCredit eid l := by
  induction l with
  | nil => rfl
  | cons e rest ih =>
    by_cases he : e.employeeId = eid
    · simp only [totalAvailableCredit, List.map_cons, List.filter_cons] at ih ⊢
      simp [he] at ih ⊢
      exact ih
    · simp only [totalAvailableCredit, List.map_cons, List.filter_cons] at ih ⊢
      simp [he] at ih ⊢
      exact ih

/-! Section: Evaluation of the concrete stores -/

theorem exSt_settle : handleSettleSalary exSt 1 12 7 = Except.ok (exTrace, exSt2) := by
  norm_num [handleSettleSalary, validateSettlement, settleEffectTrace, settleNewState,
    settlePaymentRecord, updatedCredits, sortByDate, List.insertionSort, List.orderedInsert,
    processCredits, employeeSalaryEntries, removeAllById, removeById, totalSalary,
    totalAvailableCredit, netPayable, exSt, exTrace, exSt2, Option.elim]

theorem twoEmployeeState_settle :
    handleSettleSalary twoEmployeeState 1 12 7 = Except.ok (twoTrace, twoSt2) := by
  norm_num [handleSettleSalary, validateSettlement, settleEffectTrace, settleNewState,
    settlePaymentRecord, updatedCredits, sortByDate, List.insertionSort, List.orderedInsert,
    processCredits, employeeSalaryEntries, removeAllById, removeById, totalSalary,
    totalAvailableCredit, netPayable, twoEmployeeState, twoTrace, twoSt2, Option.elim]

/-! Section: C1 -/

/-- C1: for an employee with salary total S > 0 and lifetime credit total C,
settling with a deduction D, 0 ≤ D ≤ C, succeeds, records a payment whose
netPaid is exactly S − D (no clamping, so it may be negative when D > S),
and leaves the employee's credit total over the recomputed collection at
exactly C − D. -/
theorem settlement_net_and_credit_exact (st : AppState) (eid : Nat) (D : ℚ) (today : Int)
    (hmem : eid ∈ st.employees)
    (hS : 0 < totalSalary eid st.salaryEntries)
    (hD0 : 0 ≤ D) (hDC : D ≤ totalAvailableCredit eid st.creditEntries) :
    ∃ fx st', handleSettleSalary st eid D today = Except.ok (fx, st') ∧
      Effect.addPaymentRecord
        { employeeId := eid
          salaryAmount := totalSalary eid st.salaryEntries
          creditDeducted := D
          netPaid := totalSalary eid st.salaryEntries - D
          paymentDate := today } ∈ fx ∧
      totalAvailableCredit eid st'.creditEntries =
        totalAvailableCredit eid st.creditEntries - D := by
  refine ⟨settleEffectTrace st eid D today, settleNewState st eid D today,
    handleSettleSalary_ok st eid D today hmem hD0 hDC hS, ?_, ?_⟩
  · exact List.mem_cons_self _ _
  · show totalAvailableCredit eid (updatedCredits st.creditEntries eid D) =
      totalAvailableCredit eid st.creditEntries - D
    exact totalAvailableCredit_updatedCredits st.creditEntries eid D hD0 hDC

/-- Witness for C1 at the concrete store `exSt` with D = 12. -/
theorem settlement_net_and_credit_exact_witness :
    ∃ fx st', handleSettleSalary exSt 1 12 7 = Except.ok (fx, st') ∧
      Effect.addPaymentRecord
        { employeeId := 1
          salaryAmount := totalSalary 1 exSt.salaryEntries
          creditDeducted := 12
          netPaid := totalSalary 1 exSt.salaryEntries - 12
          paymentDate := 7 } ∈ fx ∧
      totalAvailableCredit 1 st'.creditEntries =
        totalAvailableCredit 1 exSt.creditEntries - 12 :=
  settlement_net_and_credit_exact exSt 1 12 7 (by decide)
    (by norm_num [totalSalary, exSt]) (by norm_num)
    (by norm_num [totalAvailableCredit, exSt])

/-! Section: C2 -/

/-- C2: the per-employee credit reallocation walks the employee's entries in
ascending date order (the sort is an ascending-by-date permutation),
maintaining a remainder initialised to D: with the remainder spent the rest
of the list is kept unchanged; a positive remainder drops an entry whose
amount fits into it, decrementing the remainder, and otherwise keeps the
entry with its amount reduced by the remainder, spending it.  On the spec's
example — dates d1 < d2 < d3 with amounts 50, 30, 20 and D = 60 — the
settled employee's resulting list is exactly [d2 with 20, d3 with 20]. -/
theorem credit_walk_oldest_first :
    (∀ l : List CreditEntry, List.Perm (sortByDate l) l ∧
        List.Sorted (fun a b : CreditEntry => a.date ≤ b.date) (sortByDate l)) ∧
    (∀ (r : ℚ) (l : List CreditEntry) (e : CreditEntry),
        (r ≤ 0 → processCredits r l = l) ∧
        (0 < r → e.amount ≤ r → processCredits r (e :: l) = processCredits (r - e.amount) l) ∧
        (0 < r → r < e.amount →
          processCredits r (e :: l) = { e with amount := e.amount - r } :: l)) ∧
    (settledState threeCreditState 1 60 7).creditEntries =
      [⟨22, 1, 2, "b", 20⟩, ⟨23, 1, 3, "c", 20⟩] := by
  refine ⟨fun l => ⟨sortByDate_perm l, sortByDate_sorted l⟩, ?_, ?_⟩
  · intro r l e
    refine ⟨processCredits_of_nonpos l r, ?_, ?_⟩
    · intro h1 h2
      simp [processCredits, h1, h2]
    · intro h1 h2
      simp [processCredits, h1, not_le.mpr h2, processCredits_of_nonpos l 0 le_rfl]
  · norm_num [settledState, handleSettleSalary, validateSettlement, settleEffectTrace,
      settleNewState, settlePaymentRecord, updatedCredits, sortByDate, List.insertionSort,
      List.orderedInsert, processCredits, employeeSalaryEntries, removeAllById, removeById,
      totalSalary, totalAvailableCredit, netPayable, threeCreditState, Option.elim]

/-- Witness for C2: each branch of the walk applied at a concrete entry. -/
theorem credit_walk_oldest_first_witness :
    processCredits (0 : ℚ) [(⟨5, 1, 0, "w", 3⟩ : CreditEntry)] = [⟨5, 1, 0, "w", 3⟩] ∧
    processCredits (5 : ℚ) [(⟨5, 1, 0, "w", 3⟩ : CreditEntry)] = [] ∧
    processCredits (2 : ℚ) [(⟨5, 1, 0, "w", 3⟩ : CreditEntry)] = [⟨5, 1, 0, "w", 1⟩] := by
  have h := credit_walk_oldest_first.2.1
  refine ⟨(h 0 [⟨5, 1, 0, "w", 3⟩] ⟨5, 1, 0, "w", 3⟩).1 le_rfl, ?_, ?_⟩
  · have h2 := (h 5 [] ⟨5, 1, 0, "w", 3⟩).2.1 (by norm_num) (by norm_num)
    rw [h2]
    rfl
  · have h3 := (h 2 [] ⟨5, 1, 0, "w", 3⟩).2.2 (by norm_num) (by norm_num)
    rw [h3]
    norm_num

/-! Section: C3 -/

/-- C3: an invocation whose validation fails — D < 0, D above the lifetime
credit total, or the salary total at or below 0 — is rejected before any
persistence effect: it reports an error, issues zero store calls, and the
local collections are unchanged. -/
theorem settlement_validation_rejects (st : AppState) (eid : Nat) (D : ℚ) (today : Int)
    (h : D < 0 ∨ totalAvailableCredit eid st.creditEntries < D ∨
      totalSalary eid st.salaryEntries ≤ 0) :
    (∃ e, handleSettleSalary st eid D today = Except.error e) ∧
      settleEffects st eid D today = [] ∧ settledState st eid D today = st := by
  have hmain : ∃ e, handleSettleSalary st eid D today = Except.error e := by
    by_cases hmem : eid ∈ st.employees
    · by_cases h1 : D < 0
      · exact ⟨SettleError.negativeCredit,
          by simp [handleSettleSalary, validateSettlement, hmem, h1]⟩
      · by_cases h2 : totalAvailableCredit eid st.creditEntries < D
        · exact ⟨SettleError.exceedsAvailableCredit,
            by simp [handleSettleSalary, validateSettlement, hmem, h1, h2]⟩
        · have h3 : totalSalary eid st.salaryEntries ≤ 0 := by
            rcases h with h | h | h
            · exact absurd h h1
            · exact absurd h h2
            · exact h
          exact ⟨SettleError.noSalaryEntries,
            by simp [handleSettleSalary, validateSettlement, hmem, h1, h2, h3]⟩
    · exact ⟨SettleError.summaryNotFound, by simp [handleSettleSalary, hmem]⟩
  obtain ⟨e, he⟩ := hmain
  exact ⟨⟨e, he⟩, by simp [settleEffects, he], by simp [settledState, he]⟩

/-- Witness for C3 with the negative deduction −1 on the concrete store. -/
theorem settlement_validation_rejects_witness :
    (∃ e, handleSettleSalary exSt 1 (-1) 7 = Except.error e) ∧
      settleEffects exSt 1 (-1) 7 = [] ∧ settledState exSt 1 (-1) 7 = exSt :=
  settlement_validation_rejects exSt 1 (-1) 7 (Or.inl (by norm_num))

/-! Section: C4 -/

/-- C4 counterexample: with S = 100, C = 50 and D = 50, the first
settlement succeeds, but the second identical invocation fails the
credit-cap validation (the remaining credit is 0 < 50), which is checked
before the salary check — not the S = 0 validation the claim names. -/
theorem second_settlement_fails_credit_check :
    settleFailure halfCreditState 1 50 7 = none ∧
      settleFailure (settledState halfCreditState 1 50 7) 1 50 8 =
        some SettleError.exceedsAvailableCredit ∧
      SettleError.exceedsAvailableCredit ≠ SettleError.noSalaryEntries := by
  refine ⟨?_, ?_, by decide⟩
  · norm_num [settleFailure, handleSettleSalary, validateSettlement, totalSalary,
      totalAvailableCredit, halfCreditState, Option.elim]
  · norm_num [settleFailure, settledState, handleSettleSalary, validateSettlement,
      settleEffectTrace, settleNewState, settlePaymentRecord, updatedCredits, sortByDate,
      List.insertionSort, List.orderedInsert, processCredits, employeeSalaryEntries,
      removeAllById, removeById, totalSalary, totalAvailableCredit, netPayable,
      halfCreditState, Option.elim]

/-- C4 (amended): after a successful settlement every salary entry of the
employee is gone (salary total 0), so a second identical invocation always
fails and issues no store call; it fails the S = 0 validation whenever D
does not exceed the remaining credit (in particular for D = 0), and
otherwise fails the earlier credit-cap validation. -/
theorem settlement_one_shot (st : AppState) (eid : Nat) (D : ℚ) (t1 t2 : Int)
    (fx : List Effect) (st' : AppState)
    (h : handleSettleSalary st eid D t1 = Except.ok (fx, st')) :
    totalSalary eid st'.salaryEntries = 0 ∧
      (∃ e, handleSettleSalary st' eid D t2 = Except.error e) ∧
      settleEffects st' eid D t2 = [] ∧
      (D ≤ totalAvailableCredit eid st'.creditEntries →
        handleSettleSalary st' eid D t2 = Except.error SettleError.noSalaryEntries) := by
  obtain ⟨hmem, h0, hC, hS, hfx, hst⟩ := handleSettleSalary_ok_inv st eid D t1 fx st' h
  subst hst
  have hzero : totalSalary eid (settleNewState st eid D t1).salaryEntries = 0 :=
    totalSalary_removeAllById eid st.salaryEntries
  have hmem2 : eid ∈ (settleNewState st eid D t1).employees := hmem
  have hsecond : ∀ hD2 : ¬ totalAvailableCredit eid
      (settleNewState st eid D t1).creditEntries < D,
      handleSettleSalary (settleNewState st eid D t1) eid D t2 =
        Except.error SettleError.noSalaryEntries := by
    intro hD2
    simp [handleSettleSalary, validateSettlement, hmem2, not_lt.mpr h0, hD2, hzero]
  have herr : ∃ e, handleSettleSalary (settleNewState st eid D t1) eid D t2 =
      Except.error e := by
    by_cases hD2 : totalAvailableCredit eid (settleNewState st eid D t1).creditEntries < D
    · exact ⟨SettleError.exceedsAvailableCredit,
        by simp [handleSettleSalary, validateSettlement, hmem2, not_lt.mpr h0, hD2]⟩
    · exact ⟨SettleError.noSalaryEntries, hsecond hD2⟩
  obtain ⟨e, he⟩ := herr
  exact ⟨hzero, ⟨e, he⟩, by simp [settleEffects, he],
    fun hle => hsecond (not_lt.mpr hle)⟩

/-- Witness for C4's amended theorem at the concrete store `exSt`. -/
theorem settlement_one_shot_witness :
    totalSalary 1 exSt2.salaryEntries = 0 ∧
      (∃ e, handleSettleSalary exSt2 1 12 8 = Except.error e) ∧
      settleEffects exSt2 1 12 8 = [] ∧
      (12 ≤ totalAvailableCredit 1 exSt2.creditEntries →
        handleSettleSalary exSt2 1 12 8 = Except.error SettleError.noSalaryEntries) :=
  settlement_one_shot exSt 1 12 7 8 exTrace exSt2 exSt_settle

/-! Section: C5 -/

/-- C5 counterexample: on the concrete store the actual effect order is
payment record, then the salary-entry deletion, then the credit-collection
replacement — not the claimed payment, credit replacement, deletions. -/
theorem effect_order_counterexample :
    settleEffects exSt 1 12 7 =
      [Effect.addPaymentRecord ⟨1, 100, 12, 88, 7⟩, Effect.removeSalaryEntry 10,
        Effect.updateCreditEntries [⟨20, 1, 0, "flour", 18⟩]] ∧
      settleEffects exSt 1 12 7 ≠
        [Effect.addPaymentRecord ⟨1, 100, 12, 88, 7⟩,
          Effect.updateCreditEntries [⟨20, 1, 0, "flour", 18⟩],
          Effect.removeSalaryEntry 10] := by
  have h : settleEffects exSt 1 12 7 = exTrace := by
    simp [settleEffects, exSt_settle]
  rw [h]
  refine ⟨rfl, ?_⟩
  intro hc
  simp [exTrace] at hc

/-- C5 (amended): a successful settlement issues its persistence effects
sequentially in the order: create the payment record, delete each of the
employee's salary entries, then replace the global credit-entry
collection. -/
theorem effect_order (st : AppState) (eid : Nat) (D : ℚ) (today : Int)
    (fx : List Effect) (st' : AppState)
    (h : handleSettleSalary st eid D today = Except.ok (fx, st')) :
    fx = Effect.addPaymentRecord (settlePaymentRecord st eid D today) ::
      (employeeSalaryEntries st eid).map (fun e => Effect.removeSalaryEntry e.id) ++
      [Effect.updateCreditEntries (updatedCredits st.creditEntries eid D)] :=
  (handleSettleSalary_ok_inv st eid D today fx st' h).2.2.2.2.1

/-- Witness for C5's amended theorem at the concrete store `exSt`. -/
theorem effect_order_witness :
    exTrace = Effect.addPaymentRecord (settlePaymentRecord exSt 1 12 7) ::
      (employeeSalaryEntries exSt 1).map (fun e => Effect.removeSalaryEntry e.id) ++
      [Effect.updateCreditEntries (updatedCredits exSt.creditEntries 1 12)] :=
  effect_order exSt 1 12 7 exTrace exSt2 exSt_settle

/-! Section: C6 -/

/-- C6: settling employee E (with the store's salary-entry ids distinct, as
primary keys are) deletes every salary entry of E, keeps the other
employees' salary entries exactly (same list, in order), and keeps every
other employee's credit entries exactly in the recomputed collection. -/
theorem settlement_frame (st : AppState) (eid : Nat) (D : ℚ) (today : Int)
    (fx : List Effect) (st' : AppState)
    (hids : (st.salaryEntries.map (fun e => e.id)).Nodup)
    (h : handleSettleSalary st eid D today = Except.ok (fx, st')) :
    st'.salaryEntries = st.salaryEntries.filter (fun e => e.employeeId != eid) ∧
      (∀ f ∈ st'.salaryEntries, f.employeeId ≠ eid) ∧
      st'.creditEntries.filter (fun e => e.employeeId != eid) =
        st.creditEntries.filter (fun e => e.employeeId != eid) := by
  obtain ⟨_, _, _, _, _, hst⟩ := handleSettleSalary_ok_inv st eid D today fx st' h
  subst hst
  have hsal : (settleNewState st eid D today).salaryEntries =
      st.salaryEntries.filter (fun e => e.employeeId != eid) :=
    removeAllById_eq_filter_employee eid st.salaryEntries hids
  refine ⟨hsal, ?_, ?_⟩
  · intro f hf
    rw [hsal] at hf
    have := (List.mem_filter.mp hf).2
    simpa using this
  · exact filter_other_updatedCredits st.creditEntries eid D

/-- Witness for C6 at the two-employee store. -/
theorem settlement_frame_witness :
    twoSt2.salaryEntries = twoEmployeeState.salaryEntries.filter (fun e => e.employeeId != 1) ∧
      (∀ f ∈ twoSt2.salaryEntries, f.employeeId ≠ 1) ∧
      twoSt2.creditEntries.filter (fun e => e.employeeId != 1) =
        twoEmployeeState.creditEntries.filter (fun e => e.employeeId != 1) :=
  settlement_frame twoEmployeeState 1 12 7 twoTrace twoSt2 (by decide)
    twoEmployeeState_settle

/-! Section: C7 -/

/-- C7: a settlement with D = 0 is an identity on the credit side — the
recomputed collection holds exactly the same credit entries (of the settled
employee and of all others), as a permutation of the input collection — and
the recorded payment's netPaid is the full salary total S. -/
theorem settlement_zero_deduction_identity (st : AppState) (eid : Nat) (today : Int)
    (hmem : eid ∈ st.employees) (hS : 0 < totalSalary eid st.salaryEntries)
    (hC : 0 ≤ totalAvailableCredit eid st.creditEntries) :
    ∃ fx st', handleSettleSalary st eid 0 today = Except.ok (fx, st') ∧
      List.Perm st'.creditEntries st.creditEntries ∧
      Effect.addPaymentRecord
        { employeeId := eid
          salaryAmount := totalSalary eid st.salaryEntries
          creditDeducted := 0
          netPaid := totalSalary eid st.salaryEntries
          paymentDate := today } ∈ fx := by
  refine ⟨settleEffectTrace st eid 0 today, settleNewState st eid 0 today,
    handleSettleSalary_ok st eid 0 today hmem le_rfl hC hS, ?_, ?_⟩
  · show List.Perm (updatedCredits st.creditEntries eid 0) st.creditEntries
    rw [updatedCredits, processCredits_of_nonpos _ 0 le_rfl]
    have hcongr : st.creditEntries.filter (fun e => !(e.employeeId != eid)) =
        st.creditEntries.filter (fun e => e.employeeId == eid) := by
      refine List.filter_congr ?_
      intro a _
      simp [bne, Bool.not_not]
    have hperm : List.Perm
        (st.creditEntries.filter (fun e => e.employeeId != eid) ++
          st.creditEntries.filter (fun e => e.employeeId == eid)) st.creditEntries := by
      have h1 := st.creditEntries.filter_append_perm (fun e => e.employeeId != eid)
      rwa [hcongr] at h1
    exact (List.Perm.append_left _ (sortByDate_perm _)).trans hperm
  · have hrec : settlePaymentRecord st eid 0 today =
        ({ employeeId := eid
           salaryAmount := totalSalary eid st.salaryEntries
           creditDeducted := 0
           netPaid := totalSalary eid st.salaryEntries
           paymentDate := today } : PaymentRecord) := by
      simp [settlePaymentRecord, netPayable]
    rw [settleEffectTrace, hrec]
    exact List.mem_cons_self _ _

/-- Witness for C7 at the two-employee store. -/
theorem settlement_zero_deduction_identity_witness :
    ∃ fx st', handleSettleSalary twoEmployeeState 1 0 7 = Except.ok (fx, st') ∧
      List.Perm st'.creditEntries twoEmployeeState.creditEntries ∧
      Effect.addPaymentRecord
        { employeeId := 1
          salaryAmount := totalSalary 1 twoEmployeeState.salaryEntries
          creditDeducted := 0
          netPaid := totalSalary 1 twoEmployeeState.salaryEntries
          paymentDate := 7 } ∈ fx :=
  settlement_zero_deduction_identity twoEmployeeState 1 7 (by decide)
    (by norm_num [totalSalary, twoEmployeeState])
    (by norm_num [totalAvailableCredit, twoEmployeeState])

/-! Section: C8 -/

/-- C8 counterexample: the Rate/L table cell divides an entry's amount by
its liters with no zero guard, so on an entry with liters = 0 it produces a
non-finite value (modelled `none`), not 0. -/
theorem rate_cell_division_unguarded :
    rateLCell ⟨7, 1, 0, 5, 0⟩ = none ∧ rateLCell ⟨7, 1, 0, 5, 0⟩ ≠ some 0 := by
  constructor
  · simp [rateLCell, jsDiv]
  · simp [rateLCell, jsDiv]

/-- C8 (amended): the average-salary-per-entry and the average-rate
divisions guard a zero denominator and yield 0 (they are finite on every
input, the empty list included); the per-entry rate-per-liter cell is
finite only when the entry's liters are nonzero — it divides unguarded
(entries with liters ≤ 0 are rejected by form validation at entry time). -/
theorem division_guards (total : ℚ) (count : Nat) (earned milk : ℚ) (e : SalaryEntry) :
    (avgSalaryPerEntry total count).isSome = true ∧
      (count = 0 → avgSalaryPerEntry total count = some 0) ∧
      (avgRate earned milk).isSome = true ∧
      (milk ≤ 0 → avgRate earned milk = some 0) ∧
      (e.liters ≠ 0 → (rateLCell e).isSome = true) := by
  refine ⟨?_, ?_, ?_, ?_, ?_⟩
  · unfold avgSalaryPerEntry jsDiv
    by_cases h : 0 < count
    · rw [if_pos h, if_neg (by exact_mod_cast Nat.pos_iff_ne_zero.mp h)]
      rfl
    · rw [if_neg h]
      rfl
  · intro hc
    simp [avgSalaryPerEntry, hc]
  · unfold avgRate jsDiv
    by_cases h : 0 < milk
    · rw [if_pos h, if_neg h.ne']
      rfl
    · rw [if_neg h]
      rfl
  · intro hm
    rw [avgRate, if_neg (not_lt.mpr hm)]
  · intro hl
    rw [rateLCell, jsDiv, if_neg hl]
    rfl

/-- Witness for C8's amended theorem at concrete values. -/
theorem division_guards_witness :
    (avgSalaryPerEntry 10 0).isSome = true ∧ avgSalaryPerEntry 10 0 = some 0 ∧
      (avgRate 3 (-1)).isSome = true ∧ avgRate 3 (-1) = some 0 ∧
      (rateLCell ⟨1, 1, 0, 4, 2⟩).isSome = true := by
  have h := division_guards 10 0 3 (-1) ⟨1, 1, 0, 4, 2⟩
  exact ⟨h.1, h.2.1 rfl, h.2.2.1, h.2.2.2.1 (by norm_num), h.2.2.2.2 (by norm_num)⟩

/-! Section: C9 -/

/-- C9: the settlement deduction cap is the lifetime credit sum — the
operation fails the credit-cap check exactly when 0 ≤ D and the sum of ALL
the employee's credit-entry amounts is below D (so any D with 0 ≤ D ≤ that
lifetime sum passes the cap check), and that sum is unchanged under any
reassignment of the entries' dates. -/
theorem lifetime_credit_cap (st : AppState) (eid : Nat) (D : ℚ) (today : Int)
    (f : CreditEntry → Int) (hmem : eid ∈ st.employees) :
    ((handleSettleSalary st eid D today = Except.error SettleError.exceedsAvailableCredit) ↔
      (0 ≤ D ∧ totalAvailableCredit eid st.creditEntries < D)) ∧
      totalAvailableCredit eid (st.creditEntries.map (fun e => { e with date := f e })) =
        totalAvailableCredit eid st.creditEntries := by
  refine ⟨⟨?_, ?_⟩, totalAvailableCredit_map_date eid st.creditEntries f⟩
  · intro h
    by_cases h1 : D < 0
    · simp [handleSettleSalary, validateSettlement, hmem, h1] at h
    · by_cases h2 : totalAvailableCredit eid st.creditEntries < D
      · exact ⟨not_lt.mp h1, h2⟩
      · by_cases h3 : totalSalary eid st.salaryEntries ≤ 0
        · simp [handleSettleSalary, validateSettlement, hmem, h1, h2, h3] at h
        · simp [handleSettleSalary, validateSettlement, hmem, h1, h2, h3] at h
  · rintro ⟨h0, hlt⟩
    simp [handleSettleSalary, validateSettlement, hmem, not_lt.mpr h0, hlt]

/-- Witness for C9: D = 50 exceeds the lifetime credit 30 of `exSt`. -/
theorem lifetime_credit_cap_witness :
    ((handleSettleSalary exSt 1 50 7 = Except.error SettleError.exceedsAvailableCredit) ↔
      (0 ≤ (50 : ℚ) ∧ totalAvailableCredit 1 exSt.creditEntries < 50)) ∧
      totalAvailableCredit 1 (exSt.creditEntries.map (fun e => { e with date := (99 : Int) })) =
        totalAvailableCredit 1 exSt.creditEntries :=
  lifetime_credit_cap exSt 1 50 7 (fun _ => 99) (by decide)

/-! Section: C10 -/

/-- C10: settlement preserves the positivity invariant — when every credit
entry of the input store has amount > 0 and 0 ≤ D ≤ the employee's credit
total, every entry of the recomputed credit collection has amount > 0
(reduced entries stay strictly positive, consumed ones are dropped). -/
theorem settlement_preserves_positive_credits (st : AppState) (eid : Nat) (D : ℚ)
    (today : Int) (fx : List Effect) (st' : AppState)
    (hpos : ∀ e ∈ st.creditEntries, 0 < e.amount)
    (hD0 : 0 ≤ D) (hDC : D ≤ totalAvailableCredit eid st.creditEntries)
    (h : handleSettleSalary st eid D today = Except.ok (fx, st')) :
    ∀ e ∈ st'.creditEntries, 0 < e.amount := by
  obtain ⟨_, _, _, _, _, hst⟩ := handleSettleSalary_ok_inv st eid D today fx st' h
  subst hst
  intro e he
  have he2 : e ∈ updatedCredits st.creditEntries eid D := he
  rw [updatedCredits] at he2
  rcases List.mem_append.mp he2 with h1 | h1
  · exact hpos e (List.mem_of_mem_filter h1)
  · refine mem_processCredits_pos _ D ?_ e h1
    intro y hy
    exact hpos y (List.mem_of_mem_filter (mem_sortByDate hy))

/-- Witness for C10 at the two-employee store: the reduced entry (30 − 12)
kept in the settled collection is still strictly positive. -/
theorem settlement_preserves_positive_credits_witness :
    0 < (⟨20, 1, 0, "flour", 18⟩ : CreditEntry).amount :=
  settlement_preserves_positive_credits twoEmployeeState 1 12 7 twoTrace twoSt2
    (by norm_num [twoEmployeeState]) (by norm_num)
    (by norm_num [totalAvailableCredit, twoEmployeeState]) twoEmployeeState_settle
    ⟨20, 1, 0, "flour", 18⟩ (by simp [twoSt2])

end Hemang
